import Mathlib

/-!
Shallow embedding of the code-generation engine of `gen/generator.go`
(`Generator`, `renderTemplate`, `DeclareFromTemplate`, `Write`) together with
the import resolver it relies on.  Strings are modelled as `List Char` so that
every definition evaluates inside the kernel.
-/

namespace ThriftrwGen

/-- Strings of the model: plain lists of characters. -/
abbrev Str := List Char

/-! ### Decimal numerals

The alias disambiguation policy appends an increasing numeric suffix, so we
need a decimal rendering of naturals that is provably injective. -/

/-- The character of a single decimal digit. -/
def dChar : Nat → Char
  | 0 => '0' | 1 => '1' | 2 => '2' | 3 => '3' | 4 => '4'
  | 5 => '5' | 6 => '6' | 7 => '7' | 8 => '8' | _ => '9'

/-- Inverse of `dChar` on decimal digits. -/
def dVal : Char → Nat
  | '0' => 0 | '1' => 1 | '2' => 2 | '3' => 3 | '4' => 4
  | '5' => 5 | '6' => 6 | '7' => 7 | '8' => 8 | '9' => 9 | _ => 10

/-- Little-endian decimal digits of `n`, with explicit fuel. -/
def digitsLE : Nat → Nat → List Char
  | 0, _ => []
  | fuel + 1, n => if n < 10 then [dChar n] else dChar (n % 10) :: digitsLE fuel (n / 10)

/-- Value of a little-endian decimal digit list. -/
def valLE : List Char → Nat
  | [] => 0
  | c :: cs => dVal c + 10 * valLE cs

/-- Decimal rendering of a natural number. -/
def natStr (n : Nat) : Str := (digitsLE (n + 1) n).reverse

theorem dVal_dChar : ∀ d, d < 10 → dVal (dChar d) = d := by decide

theorem valLE_digitsLE : ∀ fuel n, n < fuel → valLE (digitsLE fuel n) = n := by
  intro fuel
  induction fuel with
  | zero => intro n h; omega
  | succ fuel ih =>
    intro n h
    by_cases h10 : n < 10
    · simp [digitsLE, h10, valLE, dVal_dChar n h10]
    · have hdiv : n / 10 < fuel := by omega
      simp [digitsLE, h10, valLE, dVal_dChar (n % 10) (Nat.mod_lt n (by omega)),
        ih (n / 10) hdiv]
      omega

theorem natStr_inj {a b : Nat} (h : natStr a = natStr b) : a = b := by
  have h2 : digitsLE (a + 1) a = digitsLE (b + 1) b :=
    List.reverse_injective h
  have ha := valLE_digitsLE (a + 1) a (by omega)
  have hb := valLE_digitsLE (b + 1) b (by omega)
  rw [h2, hb] at ha
  omega

/-! ### Fresh alias search (modelled from the spec, §4.1)

`Request(path)`: the default alias is the last path segment; if that default is
already claimed, a deterministic disambiguation appends an increasing numeric
suffix until an unclaimed alias is found. -/

/-- The candidate alias for numeric suffix `n`. -/
def aliasCand (base : Str) (n : Nat) : Str := base ++ natStr n

/-- Search, with fuel, for the first suffix whose candidate is unclaimed. -/
def freshFrom (taken : List Str) (base : Str) : Nat → Nat → Str
  | 0, n => aliasCand base n
  | fuel + 1, n =>
    if aliasCand base n ∈ taken then freshFrom taken base fuel (n + 1)
    else aliasCand base n

/-- Modelled from the spec: alias derivation of the Import Resolver.  The
default alias is `base`; if claimed, numeric suffixes `2, 3, …` are tried in
order.  The fuel `taken.length + 1` always suffices (pigeonhole). -/
def freshAlias (taken : List Str) (base : Str) : Str :=
  if base ∈ taken then freshFrom taken base (taken.length + 1) 2 else base

theorem aliasCand_inj {base : Str} {m n : Nat} (h : aliasCand base m = aliasCand base n) :
    m = n := natStr_inj (List.append_cancel_left h)

theorem freshFrom_not_mem (taken : List Str) (base : Str) :
    ∀ fuel n, (∃ k, k ≤ fuel ∧ aliasCand base (n + k) ∉ taken) →
      freshFrom taken base fuel n ∉ taken := by
  intro fuel
  induction fuel with
  | zero =>
    intro n ⟨k, hk, hfree⟩
    have : k = 0 := by omega
    subst this
    simp [freshFrom]
    simp at hfree
    exact hfree
  | succ fuel ih =>
    intro n ⟨k, hk, hfree⟩
    by_cases hmem : aliasCand base n ∈ taken
    · have hk0 : k ≠ 0 := by
        intro h0; subst h0; simp at hfree; exact hfree hmem
      have : aliasCand base (n + 1 + (k - 1)) ∉ taken := by
        have : n + 1 + (k - 1) = n + k := by omega
        rw [this]; exact hfree
      have h2 := ih (n + 1) ⟨k - 1, by omega, this⟩
      simpa [freshFrom, hmem] using h2
    · simp [freshFrom, hmem]

theorem exists_free_cand (taken : List Str) (base : Str) :
    ∃ k, k ≤ taken.length ∧ aliasCand base (2 + k) ∉ taken := by
  by_contra hcon
  push_neg at hcon
  have hall : ∀ k, k ≤ taken.length → aliasCand base (2 + k) ∈ taken := by
    intro k hk
    by_contra hfree
    exact hfree (hcon k hk)
  set cands := (List.range (taken.length + 1)).map (fun k => aliasCand base (2 + k)) with hc
  have hnd : cands.Nodup := by
    refine List.Nodup.map ?_ (List.nodup_range _)
    intro x y hxy
    have := aliasCand_inj hxy
    omega
  have hsub : cands ⊆ taken := by
    intro x hx
    rw [hc, List.mem_map] at hx
    obtain ⟨k, hk, rfl⟩ := hx
    rw [List.mem_range] at hk
    exact hall k (by omega)
  have hlen : cands.length ≤ taken.length := by
    calc cands.length = cands.toFinset.card := by
          rw [List.toFinset_card_of_nodup hnd]
      _ ≤ taken.toFinset.card := by
          apply Finset.card_le_card
          intro x hx
          rw [List.mem_toFinset] at hx ⊢
          exact hsub hx
      _ ≤ taken.length := List.toFinset_card_le taken
  rw [hc] at hlen
  simp at hlen

theorem freshAlias_not_mem (taken : List Str) (base : Str) :
    freshAlias taken base ∉ taken := by
  unfold freshAlias
  by_cases hmem : base ∈ taken
  · simp only [hmem, if_true]
    apply freshFrom_not_mem
    obtain ⟨k, hk, hfree⟩ := exists_free_cand taken base
    exact ⟨k, by omega, hfree⟩
  · simp [hmem]

/-! ### Import Resolver

The importer embedded in `Generator` (`newImporter`, `Import`, `addImportSpec`,
`importDecl`) is not part of `gen/generator.go`; every definition below is
modelled from the spec, §4.1. -/

/-- One resolved import: a module path bound to a local alias. -/
structure ImportBinding where
  path : Str
  aliasName : Str
deriving DecidableEq

/-- The alias table of one generation run, in registration order. -/
structure Importer where
  table : List ImportBinding
deriving DecidableEq

/-- The last `/`-separated segment of a path (the default alias). -/
def lastSeg (p : Str) : Str :=
  p.foldl (fun acc c => if c = '/' then [] else acc ++ [c]) []

/-- The binding registered for `p`, if any. -/
def Importer.lookup (imp : Importer) (p : Str) : Option ImportBinding :=
  imp.table.find? (fun b => b.path == p)

/-- All aliases currently claimed. -/
def Importer.taken (imp : Importer) : List Str := imp.table.map (·.aliasName)

/-- Modelled from the spec: `Request(path) → alias` (§4.1), the importer's
`Import` method exposed to templates as the `import` function.  Idempotent on
registered paths; otherwise registers the path under the first free alias
derived from its last segment. -/
def Importer.request (imp : Importer) (p : Str) : Str × Importer :=
  match imp.lookup p with
  | some b => (b.aliasName, imp)
  | none =>
    let a := freshAlias imp.taken (lastSeg p)
    (a, ⟨imp.table ++ [⟨p, a⟩]⟩)

/-- Modelled from the spec: `MergeLiteral(path, requestedAlias)` (§4.1), the
importer's `addImportSpec` used for literal imports found in rendered
snippets.  The literal's explicit alias (or the last path segment) is
disambiguated by the same suffixing rule. -/
def Importer.mergeLiteral (imp : Importer) (req : Option Str) (p : Str) : Importer :=
  match imp.lookup p with
  | some _ => imp
  | none =>
    let a := freshAlias imp.taken (req.getD (lastSeg p))
    ⟨imp.table ++ [⟨p, a⟩]⟩

/-! Sorting of the final import block: insertion sort by path, over a
structurally recursive lexicographic order on `Str`. -/

/-- Strict lexicographic order on character lists. -/
def strLt : Str → Str → Bool
  | [], [] => false
  | [], _ :: _ => true
  | _ :: _, [] => false
  | a :: as, b :: bs => if a < b then true else if b < a then false else strLt as bs

/-- `a` sorts no later than `b` when `b` is not strictly smaller. -/
def strLe (a b : Str) : Bool := !strLt b a

/-- Insert a binding into a path-sorted list. -/
def insertByPath (x : ImportBinding) : List ImportBinding → List ImportBinding
  | [] => [x]
  | y :: ys => if strLe x.path y.path then x :: y :: ys else y :: insertByPath x ys

/-- Insertion sort of bindings by path. -/
def sortByPath : List ImportBinding → List ImportBinding
  | [] => []
  | x :: xs => insertByPath x (sortByPath xs)

theorem mem_insertByPath {x b : ImportBinding} :
    ∀ l, b ∈ insertByPath x l ↔ b = x ∨ b ∈ l := by
  intro l
  induction l with
  | nil => simp [insertByPath]
  | cons y ys ih =>
    by_cases h : strLe x.path y.path = true
    · simp [insertByPath, h]
    · simp [insertByPath, h, ih]
      tauto

theorem mem_sortByPath {b : ImportBinding} :
    ∀ l, b ∈ sortByPath l ↔ b ∈ l := by
  intro l
  induction l with
  | nil => simp [sortByPath]
  | cons x xs ih =>
    simp [sortByPath, mem_insertByPath, ih]

/-! ### Declarations and files

The model of the `go/ast` declarations the generator manipulates: an import
declaration carries its specs (optional explicit alias, quoted path); every
other top-level declaration is kept as its raw source lines. -/

/-- A top-level declaration of a (rendered or assembled) compilation unit. -/
inductive RawDecl where
  | importD (specs : List (Option Str × Str))
  | other (lines : List Str)
deriving DecidableEq

/-- A compilation unit: package clause plus top-level declarations. -/
structure GoFile where
  pkg : Str
  decls : List RawDecl
deriving DecidableEq

/-- Modelled from the spec: `FinalBlock()` (§4.1), the importer's
`importDecl`: one import declaration covering every registered path with its
resolved alias, sorted by path; nothing if no imports were ever requested. -/
def Importer.finalBlock (imp : Importer) : Option RawDecl :=
  if imp.table.isEmpty then none
  else some (.importD ((sortByPath imp.table).map (fun b => (some b.aliasName, b.path))))

/-! ### Templates (`text/template` as used by `renderTemplate`)

Only the capabilities the generator exercises are modelled: literal text,
field access `{{.Name}}`, and the `import` function, whose side effect on the
importer (spec §4.2) is threaded through execution. -/

/-- One node of a parsed template. -/
inductive TmplNode where
  | lit (s : Str)
  | field (name : Str)
  | importCall (path : Str)
deriving DecidableEq

/-- Identifier characters. -/
def isIdentChar (c : Char) : Bool := c.isAlphanum || c == '_'

/-- Drop surrounding spaces. -/
def trimSp (s : Str) : Str :=
  ((s.dropWhile (· == ' ')).reverse.dropWhile (· == ' ')).reverse

/-- Scan up to the first `{{`; return the text before it and, when found,
the remainder after it. -/
def takeUntilOpen : Str → Str × Option Str
  | [] => ([], none)
  | '\x7b' :: '\x7b' :: rest => ([], some rest)
  | c :: rest =>
    let (a, b) := takeUntilOpen rest
    (c :: a, b)

/-- Scan up to the closing `}}`; `none` when the action is unterminated. -/
def takeUntilClose : Str → Option (Str × Str)
  | [] => none
  | '\x7d' :: '\x7d' :: rest => some ([], rest)
  | c :: rest => (takeUntilClose rest).map (fun p => (c :: p.1, p.2))

/-- Characters of a quoted literal up to the closing quote, plus remainder. -/
def quotedTail : Str → Option (Str × Str)
  | [] => none
  | '"' :: rest => some ([], rest)
  | c :: rest => (quotedTail rest).map (fun p => (c :: p.1, p.2))

/-- Parse a quoted string literal; returns its contents and the remainder. -/
def parseQuotedGo : Str → Option (Str × Str)
  | '"' :: rest => quotedTail rest
  | _ => none

/-- Parse the inside of one `{{ … }}` action. -/
def parseAction (s : Str) : Option TmplNode :=
  match trimSp s with
  | '.' :: name =>
    if name ≠ [] && name.all isIdentChar then some (.field name) else none
  | t =>
    if ("import ".data).isPrefixOf t then
      match parseQuotedGo (trimSp (t.drop 7)) with
      | some (p, rest) => if trimSp rest == [] then some (.importCall p) else none
      | none => none
    else none

/-- Parse template text into nodes, with fuel (the input length suffices). -/
def parseTmplAux : Nat → Str → Option (List TmplNode)
  | 0, s => if s == [] then some [] else none
  | fuel + 1, s =>
    match takeUntilOpen s with
    | (lit, none) => some [.lit lit]
    | (lit, some rest) =>
      match takeUntilClose rest with
      | none => none
      | some (act, rest2) =>
        match parseAction act with
        | none => none
        | some node =>
          (parseTmplAux fuel rest2).map (fun ns => .lit lit :: node :: ns)

/-- `template.Parse` of the model: `none` is a template syntax failure. -/
def parseTmpl (s : Str) : Option (List TmplNode) := parseTmplAux (s.length + 1) s

/-- The data value handed to `Execute`: named string fields. -/
abbrev Data := List (Str × Str)

/-- Field access on the data value. -/
def lookupField (d : Data) (f : Str) : Option Str :=
  (d.find? (fun kv => kv.1 == f)).map (·.2)

/-- `tmpl.Execute` of the model: renders nodes left to right, threading the
importer (the `import` function registers its path as a side effect even when
a later node fails).  An error carries the missing field's name. -/
def execNodes (d : Data) : List TmplNode → Importer → Except Str Str × Importer
  | [], imp => (.ok [], imp)
  | .lit s :: ns, imp =>
    match execNodes d ns imp with
    | (.ok out, imp2) => (.ok (s ++ out), imp2)
    | e => e
  | .field f :: ns, imp =>
    match lookupField d f with
    | none => (.error f, imp)
    | some v =>
      match execNodes d ns imp with
      | (.ok out, imp2) => (.ok (v ++ out), imp2)
      | e => e
  | .importCall p :: ns, imp =>
    let (a, imp2) := imp.request p
    match execNodes d ns imp2 with
    | (.ok out, imp3) => (.ok (a ++ out), imp3)
    | e => e

/-! ### Parsing rendered text (`parser.ParseFile` as the generator uses it)

A minimal grammar, per spec §9: a package clause, then top-level declarations,
of which import declarations are recognised and split into specs; every other
declaration is kept opaque.  A failure carries the offending line as its
excerpt. -/

/-- Split on newlines. -/
def splitLines : Str → List Str
  | [] => [[]]
  | c :: rest =>
    if c = '\n' then [] :: splitLines rest
    else
      match splitLines rest with
      | [] => [[c]]
      | l :: ls => (c :: l) :: ls

/-- A line of only spaces and tabs. -/
def isBlank (l : Str) : Bool := l.all (fun c => c == ' ' || c == '\t')

/-- Does the line open a non-import top-level declaration? -/
def declKeyword (l : Str) : Bool :=
  ("type ".data).isPrefixOf l || ("const ".data).isPrefixOf l ||
  ("var ".data).isPrefixOf l || ("func ".data).isPrefixOf l

/-- Nesting contribution of one character. -/
def braceCharDelta (c : Char) : Int :=
  if c == '\x7b' || c == '(' then 1
  else if c == '\x7d' || c == ')' then -1
  else 0

/-- Net nesting change over a line. -/
def braceDelta (l : Str) : Int := (l.map braceCharDelta).sum

/-- Consume the continuation lines of a declaration opened with nesting
depth `d`; returns (body lines, remaining lines). -/
def collectDecl : Int → List Str → List Str × List Str
  | _, [] => ([], [])
  | d, l :: rest =>
    if d + braceDelta l ≤ 0 then ([l], rest)
    else
      (l :: (collectDecl (d + braceDelta l) rest).1,
       (collectDecl (d + braceDelta l) rest).2)

/-- Parse one import spec: an optional alias identifier and a quoted path. -/
def parseSpecTail (s : Str) : Option (Option Str × Str) :=
  let t := trimSp s
  match parseQuotedGo t with
  | some (p, rest) => if trimSp rest == [] then some (none, p) else none
  | none =>
    let name := t.takeWhile isIdentChar
    let rest := t.dropWhile isIdentChar
    if name ≠ [] then
      match parseQuotedGo (trimSp rest) with
      | some (p, rest2) => if trimSp rest2 == [] then some (some name, p) else none
      | none => none
    else none

/-- Consume the lines of a parenthesised import block opened at line `l0`,
with fuel; returns the specs and the remaining lines. -/
def collectImports (l0 : Str) : Nat → List Str → Except Str (List (Option Str × Str) × List Str)
  | _, [] => .error l0
  | 0, l :: _ => .error l
  | fuel + 1, l :: rest =>
    if isBlank l then collectImports l0 fuel rest
    else if trimSp l == ")".data then .ok ([], rest)
    else
      match parseSpecTail l with
      | some spec => (collectImports l0 fuel rest).map (fun p => (spec :: p.1, p.2))
      | none => .error l

/-- Parse the top-level declarations of the unit, with fuel (the number of
lines suffices).  A failure names the offending line. -/
def parseDecls : Nat → List Str → Except Str (List RawDecl)
  | _, [] => .ok []
  | 0, l :: _ => .error l
  | fuel + 1, l :: rest =>
    if isBlank l then parseDecls fuel rest
    else if ("import".data).isPrefixOf l then
      if trimSp (l.drop 6) == "(".data then
        match collectImports l fuel rest with
        | .error e => .error e
        | .ok pr =>
          (parseDecls fuel pr.2).map (fun ds => .importD pr.1 :: ds)
      else
        match parseSpecTail (l.drop 6) with
        | some spec => (parseDecls fuel rest).map (fun ds => .importD [spec] :: ds)
        | none => .error l
    else if declKeyword l then
      if braceDelta l ≤ 0 then
        (parseDecls fuel rest).map (fun ds => .other [l] :: ds)
      else
        (parseDecls fuel (collectDecl (braceDelta l) rest).2).map
          (fun ds => .other (l :: (collectDecl (braceDelta l) rest).1) :: ds)
    else .error l

/-- `parser.ParseFile` of the model: package clause then declarations.
A failure carries the offending line of the source as its excerpt. -/
def parseFile (s : Str) : Except Str GoFile :=
  match (splitLines s).dropWhile (fun l => isBlank l) with
  | [] => .error []
  | l :: rest =>
    if ("package ".data).isPrefixOf l then
      let pkg := trimSp (l.drop 8)
      if pkg ≠ [] && pkg.all isIdentChar then
        match parseDecls rest.length rest with
        | .ok ds => .ok ⟨pkg, ds⟩
        | .error e => .error e
      else .error l
    else .error l

/-! ### The Generator (`gen/generator.go`) -/

/-- The error taxonomy of `DeclareFromTemplate` (spec §7): a failure of
`template.Parse`, of `tmpl.Execute` (naming the missing field), or of
`parser.ParseFile` on the rendered text (carrying the offending excerpt). -/
inductive GenError where
  | TemplateSyntaxError
  | TemplateExecutionError (field : Str)
  | RenderedSyntaxError (excerpt : Str)
deriving DecidableEq

/-- `Generator` tracks code generation state: the embedded importer and the
accumulated declarations. -/
structure Generator where
  importer : Importer
  decls : List RawDecl
deriving DecidableEq

/-- `NewGenerator` sets up a new generator for Go code. -/
def NewGenerator : Generator := ⟨⟨[]⟩, []⟩

/-- The fixed header prepended before execution (`generator.go:73`). -/
def pkgHeader : Str := "package thriftrw\n\n".data

/-- `renderTemplate` (`generator.go:50-79`): parse the template text, then
execute it against `data` into a buffer pre-filled with `pkgHeader`.  The
`import` template function goes through the generator's importer, so partial
registrations survive a later execution failure. -/
def renderTemplate (g : Generator) (s : Str) (data : Data) :
    Except GenError Str × Generator :=
  match parseTmpl s with
  | none => (.error .TemplateSyntaxError, g)
  | some nodes =>
    match execNodes data nodes g.importer with
    | (.error f, imp2) => (.error (.TemplateExecutionError f), { g with importer := imp2 })
    | (.ok out, imp2) => (.ok (pkgHeader ++ out), { g with importer := imp2 })

/-- `appendDecl` (`generator.go:174-177`). -/
def appendDecl (g : Generator) (d : RawDecl) : Generator :=
  { g with decls := g.decls ++ [d] }

/-- `addImportSpec` applied to one literal import spec (`generator.go:146`). -/
def addImportSpec (g : Generator) (spec : Option Str × Str) : Generator :=
  { g with importer := g.importer.mergeLiteral spec.1 spec.2 }

/-- The body of the loop of `DeclareFromTemplate` (`generator.go:133-148`):
the import declarations feed `addImportSpec`, everything else is appended. -/
def processDecl (g : Generator) : RawDecl → Generator
  | .importD specs => specs.foldl addImportSpec g
  | d => appendDecl g d

/-- `DeclareFromTemplate` (`generator.go:122-151`): render, parse the rendered
text, then merge imports and append the remaining declarations in order. -/
def DeclareFromTemplate (g : Generator) (s : Str) (data : Data) :
    Except GenError Unit × Generator :=
  match renderTemplate g s data with
  | (.error e, g2) => (.error e, g2)
  | (.ok bs, g2) =>
    match parseFile bs with
    | .error excerpt => (.error (.RenderedSyntaxError excerpt), g2)
    | .ok f => (.ok (), f.decls.foldl processDecl g2)

/-- The declaration list of the file `Write` assembles (`generator.go:160-165`):
the consolidated import declaration, when present, followed by the
accumulated declarations. -/
def writeDecls (g : Generator) : List RawDecl :=
  (match g.importer.finalBlock with
   | some d => [d]
   | none => []) ++ g.decls

/-- The `ast.File` that `Write` formats (`generator.go:167-170`): the fixed
package identifier `todo`, then `writeDecls`. -/
def writeFile (g : Generator) : GoFile := ⟨"todo".data, writeDecls g⟩

/-- Rendering of one import spec line in the final block. -/
def formatSpec (spec : Option Str × Str) : Str :=
  '\t' :: (match spec.1 with
           | some a => a ++ [' ']
           | none => []) ++ '"' :: spec.2 ++ "\"\n".data

/-- Rendering of one declaration (the model of `go/format` output). -/
def formatDecl : RawDecl → Str
  | .importD specs => "import (\n".data ++ (specs.map formatSpec).flatten ++ ")\n".data
  | .other lines => (lines.map (fun l => l ++ ['\n'])).flatten

/-- Canonical rendering of a compilation unit (`format.Node` of the model). -/
def formatFile (f : GoFile) : Str :=
  "package ".data ++ f.pkg ++ "\n\n".data ++ (f.decls.map formatDecl).flatten

/-- `Write` (`generator.go:155-172`): formats the assembled file.  The
generator itself is not modified. -/
def Write (g : Generator) : Str × Generator := (formatFile (writeFile g), g)

/-- A whole run: fold a sequence of `DeclareFromTemplate` calls over a state. -/
def runSeq (g : Generator) (calls : List (Str × Data)) : Generator :=
  calls.foldl (fun g c => (DeclareFromTemplate g c.1 c.2).2) g

/-- The rendered-and-parsed unit of one call, when it succeeds. -/
def renderedUnit (g : Generator) (s : Str) (data : Data) : Option GoFile :=
  match renderTemplate g s data with
  | (.ok bs, _) => (parseFile bs).toOption
  | _ => none

/-- Is this a non-import declaration? -/
def isOtherDecl : RawDecl → Bool
  | .other _ => true
  | .importD _ => false

/-- An import-resolver operation: a programmatic request or a literal merge. -/
inductive ImpOp where
  | request (p : Str)
  | literal (a : Option Str) (p : Str)

/-- Apply one resolver operation. -/
def applyOp (imp : Importer) : ImpOp → Importer
  | .request p => (imp.request p).2
  | .literal a p => imp.mergeLiteral a p

/-- Run a sequence of resolver operations from the empty importer. -/
def applyOps (ops : List ImpOp) : Importer := ops.foldl applyOp ⟨[]⟩

/-! ### State lemmas -/

theorem request_table (imp : Importer) (p : Str) :
    ∃ t, ((imp.request p).2).table = imp.table ++ t := by
  unfold Importer.request
  cases h : imp.lookup p with
  | none => exact ⟨[⟨p, freshAlias imp.taken (lastSeg p)⟩], by simp⟩
  | some b => exact ⟨[], by simp⟩

theorem execNodes_table (d : Data) :
    ∀ nodes (imp : Importer), ∃ t, ((execNodes d nodes imp).2).table = imp.table ++ t := by
  intro nodes
  induction nodes with
  | nil => intro imp; exact ⟨[], by simp [execNodes]⟩
  | cons n ns ih =>
    intro imp
    cases n with
    | lit s =>
      obtain ⟨t, ht⟩ := ih imp
      refine ⟨t, ?_⟩
      simp only [execNodes]
      rcases h : execNodes d ns imp with ⟨r, imp2⟩
      rw [h] at ht
      cases r <;> simpa using ht
    | field f =>
      cases hl : lookupField d f with
      | none => exact ⟨[], by simp [execNodes, hl]⟩
      | some v =>
        obtain ⟨t, ht⟩ := ih imp
        refine ⟨t, ?_⟩
        simp only [execNodes, hl]
        rcases h : execNodes d ns imp with ⟨r, imp2⟩
        rw [h] at ht
        cases r <;> simpa using ht
    | importCall p =>
      obtain ⟨t1, ht1⟩ := request_table imp p
      obtain ⟨t2, ht2⟩ := ih (imp.request p).2
      refine ⟨t1 ++ t2, ?_⟩
      simp only [execNodes]
      rcases hq : imp.request p with ⟨a, impR⟩
      rw [hq] at ht1 ht2
      simp only at ht1 ht2
      rcases h : execNodes d ns impR with ⟨r, imp2⟩
      rw [h] at ht2
      simp only at ht2
      cases r <;> simp <;> rw [ht2, ht1, List.append_assoc]

theorem foldl_addImportSpec_decls :
    ∀ (specs : List (Option Str × Str)) (g : Generator),
      (specs.foldl addImportSpec g).decls = g.decls := by
  intro specs
  induction specs with
  | nil => intro g; rfl
  | cons sp sps ih => intro g; rw [List.foldl_cons, ih]; rfl

theorem foldl_processDecl_decls :
    ∀ (ds : List RawDecl) (g : Generator),
      (ds.foldl processDecl g).decls = g.decls ++ ds.filter isOtherDecl := by
  intro ds
  induction ds with
  | nil => intro g; simp
  | cons d ds ih =>
    intro g
    cases d with
    | importD specs =>
      rw [List.foldl_cons, ih]
      simp [processDecl, foldl_addImportSpec_decls, isOtherDecl, List.filter_cons]
    | other lines =>
      rw [List.foldl_cons, ih]
      simp [processDecl, appendDecl, isOtherDecl, List.filter_cons]

theorem declare_decls_extends (g : Generator) (s : Str) (data : Data) :
    ∃ ds, (DeclareFromTemplate g s data).2.decls = g.decls ++ ds := by
  unfold DeclareFromTemplate renderTemplate
  cases hp : parseTmpl s with
  | none => exact ⟨[], by simp⟩
  | some nodes =>
    rcases he : execNodes data nodes g.importer with ⟨r, imp2⟩
    cases r with
    | error f => exact ⟨[], by simp [he]⟩
    | ok out =>
      simp only [he]
      cases hpf : parseFile (pkgHeader ++ out) with
      | error ex => exact ⟨[], by simp⟩
      | ok f =>
        exact ⟨f.decls.filter isOtherDecl, by simp [foldl_processDecl_decls]⟩

/-! Explicit equations of `DeclareFromTemplate`, one per control-flow path. -/

theorem declare_eq_tsyn (g : Generator) (data : Data) {s : Str}
    (hp : parseTmpl s = none) :
    DeclareFromTemplate g s data = (.error .TemplateSyntaxError, g) := by
  simp [DeclareFromTemplate, renderTemplate, hp]

theorem declare_eq_texec (g : Generator) (s : Str) (data : Data)
    {nodes : List TmplNode} {f : Str} {imp2 : Importer}
    (hp : parseTmpl s = some nodes)
    (he : execNodes data nodes g.importer = (.error f, imp2)) :
    DeclareFromTemplate g s data
      = (.error (.TemplateExecutionError f), { g with importer := imp2 }) := by
  simp [DeclareFromTemplate, renderTemplate, hp, he]

theorem declare_eq_rsyn (g : Generator) (s : Str) (data : Data)
    {nodes : List TmplNode} {out : Str} {imp2 : Importer} {ex : Str}
    (hp : parseTmpl s = some nodes)
    (he : execNodes data nodes g.importer = (.ok out, imp2))
    (hpf : parseFile (pkgHeader ++ out) = .error ex) :
    DeclareFromTemplate g s data
      = (.error (.RenderedSyntaxError ex), { g with importer := imp2 }) := by
  simp [DeclareFromTemplate, renderTemplate, hp, he, hpf]

theorem declare_eq_ok (g : Generator) (s : Str) (data : Data)
    {nodes : List TmplNode} {out : Str} {imp2 : Importer} {f : GoFile}
    (hp : parseTmpl s = some nodes)
    (he : execNodes data nodes g.importer = (.ok out, imp2))
    (hpf : parseFile (pkgHeader ++ out) = .ok f) :
    DeclareFromTemplate g s data
      = (.ok (), f.decls.foldl processDecl { g with importer := imp2 }) := by
  simp [DeclareFromTemplate, renderTemplate, hp, he, hpf]

/-! ### Claim C1 -/

/-- The template of the C1 counterexample: a successful `import` call followed
by text that does not parse as a declaration. -/
def c1Tmpl : Str := "\x7b\x7bimport \"fmt\"\x7d\x7d junk".data

/-- C1 counterexample: `DeclareFromTemplate` fails on `c1Tmpl` (the rendered
text does not parse), yet the import table is not left as it was — the alias
registered by the `import` call during rendering survives the failure. -/
theorem c1_state_not_unchanged :
    (DeclareFromTemplate NewGenerator c1Tmpl []).1
      = .error (.RenderedSyntaxError "fmt junk".data) ∧
    (DeclareFromTemplate NewGenerator c1Tmpl []).2.importer.table
      ≠ NewGenerator.importer.table := by
  constructor
  · rfl
  · decide

/-- C1 (amended): if `DeclareFromTemplate` returns an error, the accumulated
declaration sequence is left exactly as it was; on a template parse failure
the whole state is unchanged; on a template execution failure or a parse
failure of the rendered text the import table is unchanged except that it may
be extended by the aliases the template's `import` calls registered before the
failure. -/
theorem c1_error_isolation (g : Generator) (s : Str) (data : Data) (e : GenError)
    (h : (DeclareFromTemplate g s data).1 = .error e) :
    (DeclareFromTemplate g s data).2.decls = g.decls ∧
    (∃ t, (DeclareFromTemplate g s data).2.importer.table = g.importer.table ++ t) ∧
    (e = .TemplateSyntaxError → (DeclareFromTemplate g s data).2 = g) := by
  cases hp : parseTmpl s with
  | none =>
    rw [declare_eq_tsyn g data hp]
    exact ⟨rfl, ⟨[], by simp⟩, fun _ => rfl⟩
  | some nodes =>
    have htab := execNodes_table data nodes g.importer
    rcases he : execNodes data nodes g.importer with ⟨r, imp2⟩
    rw [he] at htab
    simp only at htab
    cases r with
    | error f =>
      rw [declare_eq_texec g s data hp he] at h ⊢
      refine ⟨rfl, htab, ?_⟩
      simp only at h
      have he2 : e = .TemplateExecutionError f := by cases h; rfl
      subst he2
      intro habs; cases habs
    | ok out =>
      cases hpf : parseFile (pkgHeader ++ out) with
      | error ex =>
        rw [declare_eq_rsyn g s data hp he hpf] at h ⊢
        refine ⟨rfl, htab, ?_⟩
        simp only at h
        have he2 : e = .RenderedSyntaxError ex := by cases h; rfl
        subst he2
        intro habs; cases habs
      | ok f =>
        rw [declare_eq_ok g s data hp he hpf] at h
        simp at h

/-- C1 witness: on the unterminated template `{{`, the failure is a template
syntax error and the state is completely unchanged. -/
theorem c1_error_isolation_witness :
    (DeclareFromTemplate NewGenerator "\x7b\x7b".data []).2 = NewGenerator :=
  (c1_error_isolation NewGenerator "\x7b\x7b".data [] .TemplateSyntaxError rfl).2.2 rfl

/-! ### Claim C2 -/

/-- C2: two fresh generator states driven by the identical ordered sequence of
`DeclareFromTemplate` calls followed by `Write` produce byte-identical output:
the output is a pure function of the input sequence. -/
theorem c2_write_deterministic (calls : List (Str × Data)) (g1 g2 : Generator)
    (h1 : g1 = NewGenerator) (h2 : g2 = NewGenerator) :
    (Write (runSeq g1 calls)).1 = (Write (runSeq g2 calls)).1 := by
  subst h1; subst h2; rfl

/-- C2 witness: the determinism theorem applied to a concrete one-call run. -/
theorem c2_write_deterministic_witness :
    (Write (runSeq NewGenerator [("const a = 1".data, [])])).1
      = (Write (runSeq NewGenerator [("const a = 1".data, [])])).1 :=
  c2_write_deterministic [("const a = 1".data, [])] NewGenerator NewGenerator rfl rfl

/-! ### Claim C8 -/

/-- C8: `Write` is idempotent — it leaves the state untouched, so repeated
calls with no intervening declare return the same bytes — and a
`DeclareFromTemplate` issued after a `Write` behaves exactly as it would have
without the `Write`, extending the declaration sequence for a later `Write`. -/
theorem c8_write_idempotent (g : Generator) :
    (Write g).2 = g ∧
    (Write ((Write g).2)).1 = (Write g).1 ∧
    (∀ s data, DeclareFromTemplate ((Write g).2) s data = DeclareFromTemplate g s data) ∧
    (∀ s data, ∃ ds,
      (DeclareFromTemplate ((Write g).2) s data).2.decls = g.decls ++ ds) :=
  ⟨rfl, rfl, fun _ _ => rfl, fun s data => declare_decls_extends g s data⟩

/-! ### Claim C4 -/

/-- C4: `Write` renders the file whose declarations are the consolidated
imports declaration (when any import was registered) followed by the
accumulated declarations in order; with an empty import table there is no
imports block and the declarations stand alone. -/
theorem c4_write_layout (g : Generator) :
    (Write g).1 = formatFile ⟨"todo".data, writeDecls g⟩ ∧
    ((g.importer.table = [] ∧ g.importer.finalBlock = none ∧ writeDecls g = g.decls) ∨
     (g.importer.table ≠ [] ∧ ∃ specs,
        g.importer.finalBlock = some (.importD specs) ∧
        writeDecls g = .importD specs :: g.decls)) := by
  refine ⟨rfl, ?_⟩
  by_cases htab : g.importer.table = []
  · left
    have hfb : g.importer.finalBlock = none := by
      simp [Importer.finalBlock, htab]
    exact ⟨htab, hfb, by simp [writeDecls, hfb]⟩
  · right
    have hfb : g.importer.finalBlock
        = some (.importD ((sortByPath g.importer.table).map
            (fun b => (some b.aliasName, b.path)))) := by
      simp [Importer.finalBlock, List.isEmpty_iff, htab]
    exact ⟨htab, _, hfb, by simp [writeDecls, hfb]⟩

/-! ### Claim C5 -/

theorem find?_append_self (p a : Str) :
    ∀ l : List ImportBinding, l.find? (fun b => b.path == p) = none →
      (l ++ [(⟨p, a⟩ : ImportBinding)]).find? (fun b => b.path == p)
        = some (⟨p, a⟩ : ImportBinding) := by
  intro l
  induction l with
  | nil => intro _; simp
  | cons b bs ih =>
    intro h
    rw [List.find?_cons] at h
    cases hb : (b.path == p) with
    | true => rw [hb] at h; cases h
    | false =>
      rw [hb] at h
      simp only [List.cons_append, List.find?_cons, hb]
      exact ih h

theorem lookup_append_self {imp : Importer} {p : Str} (a : Str)
    (h : imp.lookup p = none) :
    Importer.lookup ⟨imp.table ++ [⟨p, a⟩]⟩ p = some ⟨p, a⟩ :=
  find?_append_self p a imp.table h

/-- C5: requesting the same path twice returns the same alias both times, and
the registration is idempotent — the second call adds no binding. -/
theorem c5_request_idempotent (imp : Importer) (p : Str) :
    ((imp.request p).2.request p).1 = (imp.request p).1 ∧
    ((imp.request p).2.request p).2 = (imp.request p).2 := by
  cases h : imp.lookup p with
  | some b =>
    simp [Importer.request, h]
  | none =>
    have h2 := lookup_append_self (a := freshAlias imp.taken (lastSeg p)) h
    constructor <;>
      simp [Importer.request, h, h2]

/-! ### Claim C6 -/

/-- The resolver invariant: registered paths are pairwise distinct and so are
their aliases. -/
def ImporterInv (imp : Importer) : Prop :=
  (imp.table.map (·.path)).Nodup ∧ (imp.table.map (·.aliasName)).Nodup

theorem lookup_none_not_mem {imp : Importer} {p : Str} (h : imp.lookup p = none) :
    p ∉ imp.table.map (·.path) := by
  intro hmem
  rw [List.mem_map] at hmem
  obtain ⟨b, hb, rfl⟩ := hmem
  unfold Importer.lookup at h
  rw [List.find?_eq_none] at h
  simpa using h b hb

theorem inv_insert {imp : Importer} {p a : Str}
    (hl : imp.lookup p = none) (ha : a ∉ imp.taken)
    (hinv : ImporterInv imp) :
    ImporterInv ⟨imp.table ++ [⟨p, a⟩]⟩ := by
  obtain ⟨hP, hA⟩ := hinv
  have hp2 := lookup_none_not_mem hl
  constructor
  · show ((imp.table ++ [(⟨p, a⟩ : ImportBinding)]).map (·.path)).Nodup
    rw [List.map_append]
    simp [List.nodup_append, hP]
    intro x hx hxp
    exact hp2 (hxp ▸ List.mem_map_of_mem _ hx)
  · show ((imp.table ++ [(⟨p, a⟩ : ImportBinding)]).map (·.aliasName)).Nodup
    rw [List.map_append]
    simp [List.nodup_append, hA]
    intro x hx hxa
    exact ha (hxa ▸ List.mem_map_of_mem _ hx)

theorem applyOp_inv (imp : Importer) (op : ImpOp) (hinv : ImporterInv imp) :
    ImporterInv (applyOp imp op) := by
  cases op with
  | request p =>
    show ImporterInv (imp.request p).2
    cases hl : imp.lookup p with
    | some b => simpa [Importer.request, hl] using hinv
    | none =>
      have := inv_insert hl (freshAlias_not_mem imp.taken (lastSeg p)) hinv
      simpa [Importer.request, hl] using this
  | literal a p =>
    show ImporterInv (imp.mergeLiteral a p)
    cases hl : imp.lookup p with
    | some b => simpa [Importer.mergeLiteral, hl] using hinv
    | none =>
      have := inv_insert hl
        (freshAlias_not_mem imp.taken (a.getD (lastSeg p))) hinv
      simpa [Importer.mergeLiteral, hl] using this

/-- C6: over any sequence of resolver operations — programmatic requests and
literal merges alike — the registered paths are pairwise distinct and the
resulting aliases are pairwise distinct; in particular the two paths `a/util`
and `b/util`, which share a final segment, receive the distinct deterministic
aliases `util` and `util2`, and the final import block lists both paths, each
under its own alias. -/
theorem c6_alias_uniqueness :
    (∀ ops : List ImpOp,
      ((applyOps ops).table.map (·.aliasName)).Nodup ∧
      ((applyOps ops).table.map (·.path)).Nodup) ∧
    (Importer.request ⟨[]⟩ "a/util".data).1 = "util".data ∧
    ((Importer.request ⟨[]⟩ "a/util".data).2.request "b/util".data).1 = "util2".data ∧
    ("util".data : Str) ≠ "util2".data ∧
    ((Importer.request ⟨[]⟩ "a/util".data).2.request "b/util".data).2.finalBlock
      = some (.importD [(some "util".data, "a/util".data),
                        (some "util2".data, "b/util".data)]) := by
  refine ⟨?_, by decide, by decide, by decide, by decide⟩
  have key : ∀ (ops : List ImpOp) (imp : Importer),
      ImporterInv imp → ImporterInv (ops.foldl applyOp imp) := by
    intro ops
    induction ops with
    | nil => intro imp h; exact h
    | cons op ops ih =>
      intro imp h
      rw [List.foldl_cons]
      exact ih _ (applyOp_inv imp op h)
  intro ops
  have := key ops ⟨[]⟩ (by constructor <;> simp)
  exact ⟨this.2, this.1⟩

/-! ### Claim C3 -/

theorem declare_ok_decls (g : Generator) (s : Str) (data : Data)
    (h : (DeclareFromTemplate g s data).1 = .ok ()) :
    ∃ f, renderedUnit g s data = some f ∧
      (DeclareFromTemplate g s data).2.decls = g.decls ++ f.decls.filter isOtherDecl := by
  cases hp : parseTmpl s with
  | none => rw [declare_eq_tsyn g data hp] at h; cases h
  | some nodes =>
    rcases he : execNodes data nodes g.importer with ⟨r, imp2⟩
    cases r with
    | error f => rw [declare_eq_texec g s data hp he] at h; cases h
    | ok out =>
      cases hpf : parseFile (pkgHeader ++ out) with
      | error ex => rw [declare_eq_rsyn g s data hp he hpf] at h; cases h
      | ok f =>
        refine ⟨f, ?_, ?_⟩
        · simp [renderedUnit, renderTemplate, hp, he, hpf, Except.toOption]
        · rw [declare_eq_ok g s data hp he hpf]
          simp [foldl_processDecl_decls]

/-- C3: across two successive successful `DeclareFromTemplate` calls, the
non-import declarations of each rendered snippet are appended in snippet
order, all declarations of the first call precede all declarations of the
second, and `Write` keeps exactly that order after the optional import
block. -/
theorem c3_decl_order (g : Generator) (s1 s2 : Str) (d1 d2 : Data)
    (h1 : (DeclareFromTemplate g s1 d1).1 = .ok ())
    (h2 : (DeclareFromTemplate (DeclareFromTemplate g s1 d1).2 s2 d2).1 = .ok ()) :
    ∃ f1 f2,
      renderedUnit g s1 d1 = some f1 ∧
      renderedUnit (DeclareFromTemplate g s1 d1).2 s2 d2 = some f2 ∧
      (DeclareFromTemplate (DeclareFromTemplate g s1 d1).2 s2 d2).2.decls
        = g.decls ++ f1.decls.filter isOtherDecl ++ f2.decls.filter isOtherDecl ∧
      ∃ blk, writeDecls (DeclareFromTemplate (DeclareFromTemplate g s1 d1).2 s2 d2).2
        = blk ++ (g.decls ++ f1.decls.filter isOtherDecl ++ f2.decls.filter isOtherDecl) := by
  obtain ⟨f1, hu1, hd1⟩ := declare_ok_decls g s1 d1 h1
  obtain ⟨f2, hu2, hd2⟩ := declare_ok_decls (DeclareFromTemplate g s1 d1).2 s2 d2 h2
  refine ⟨f1, f2, hu1, hu2, ?_, ?_⟩
  · rw [hd2, hd1, List.append_assoc]
  · refine ⟨(match (DeclareFromTemplate (DeclareFromTemplate g s1 d1).2 s2 d2).2.importer.finalBlock with
             | some d => [d]
             | none => []), ?_⟩
    rw [writeDecls, hd2, hd1, List.append_assoc]

/-- C3 witness: two concrete successful calls; their declarations appear in
call order in the assembled file. -/
theorem c3_decl_order_witness :
    ∃ f1 f2,
      renderedUnit NewGenerator "const a = 1".data [] = some f1 ∧
      renderedUnit (DeclareFromTemplate NewGenerator "const a = 1".data []).2
        "const b = 2".data [] = some f2 ∧
      (DeclareFromTemplate (DeclareFromTemplate NewGenerator "const a = 1".data []).2
        "const b = 2".data []).2.decls
        = NewGenerator.decls ++ f1.decls.filter isOtherDecl
            ++ f2.decls.filter isOtherDecl ∧
      ∃ blk, writeDecls (DeclareFromTemplate
          (DeclareFromTemplate NewGenerator "const a = 1".data []).2
          "const b = 2".data []).2
        = blk ++ (NewGenerator.decls ++ f1.decls.filter isOtherDecl
            ++ f2.decls.filter isOtherDecl) :=
  c3_decl_order NewGenerator "const a = 1".data "const b = 2".data [] [] rfl rfl

/-! ### Claim C7 -/

theorem splitLines_ne_nil : ∀ s : Str, splitLines s ≠ [] := by
  intro s
  cases s with
  | nil => simp [splitLines]
  | cons c rest =>
    simp only [splitLines]
    by_cases hc : c = '\n'
    · simp [hc]
    · simp only [hc, if_false]
      cases splitLines rest <;> simp

theorem splitLines_flat :
    ∀ a : Str, '\n' ∉ a → ∀ rest : Str,
      splitLines (a ++ '\n' :: rest) = a :: splitLines rest := by
  intro a
  induction a with
  | nil => intro _ rest; simp [splitLines]
  | cons c a ih =>
    intro hnl rest
    have hc : c ≠ '\n' := by intro h; exact hnl (h ▸ List.mem_cons_self c a)
    have ha : '\n' ∉ a := fun h => hnl (List.mem_cons_of_mem c h)
    show splitLines (c :: (a ++ '\n' :: rest)) = (c :: a) :: splitLines rest
    simp only [splitLines, hc, if_false]
    rw [ih ha rest]

theorem collectDecl_sub :
    ∀ (lines : List Str) (d : Int) (x : Str),
      x ∈ (collectDecl d lines).2 → x ∈ lines := by
  intro lines
  induction lines with
  | nil => intro d x hx; simp [collectDecl] at hx
  | cons l rest ih =>
    intro d x hx
    simp only [collectDecl] at hx
    by_cases hd : d + braceDelta l ≤ 0
    · simp only [hd, if_true] at hx
      exact List.mem_cons_of_mem l hx
    · simp only [hd, if_false] at hx
      exact List.mem_cons_of_mem l (ih _ x hx)

theorem collectImports_sub :
    ∀ (fuel : Nat) (lines : List Str) (l0 : Str)
      (pr : List (Option Str × Str) × List Str),
      collectImports l0 fuel lines = .ok pr →
      ∀ x ∈ pr.2, x ∈ lines := by
  intro fuel
  induction fuel with
  | zero =>
    intro lines l0 pr h
    cases lines with
    | nil => cases h
    | cons l rest => cases h
  | succ fuel ih =>
    intro lines l0 pr h
    cases lines with
    | nil => cases h
    | cons l rest =>
      simp only [collectImports] at h
      by_cases hb : isBlank l = true
      · simp only [hb, if_true] at h
        intro x hx
        exact List.mem_cons_of_mem _ (ih rest l0 pr h x hx)
      · simp only [hb, if_false] at h
        by_cases hp : (trimSp l == ")".data) = true
        · simp only [hp, if_true] at h
          cases h
          intro x hx
          exact List.mem_cons_of_mem _ hx
        · simp only [hp, if_false] at h
          cases hs : parseSpecTail l with
          | none => rw [hs] at h; cases h
          | some spec =>
            rw [hs] at h
            dsimp only at h
            cases hrec : collectImports l0 fuel rest with
            | error e => rw [hrec] at h; cases h
            | ok pr2 =>
              rw [hrec] at h
              simp only [Except.map] at h
              cases h
              intro x hx
              exact List.mem_cons_of_mem _ (ih rest l0 pr2 hrec x hx)

theorem collectImports_error_mem :
    ∀ (fuel : Nat) (lines : List Str) (l0 e : Str),
      collectImports l0 fuel lines = .error e → e = l0 ∨ e ∈ lines := by
  intro fuel
  induction fuel with
  | zero =>
    intro lines l0 e h
    cases lines with
    | nil =>
      left
      injection h with h2
      exact h2.symm
    | cons l rest =>
      right
      injection h with h2
      rw [← h2]
      exact List.mem_cons_self _ _
  | succ fuel ih =>
    intro lines l0 e h
    cases lines with
    | nil =>
      left
      injection h with h2
      exact h2.symm
    | cons l rest =>
      simp only [collectImports] at h
      by_cases hb : isBlank l = true
      · simp only [hb, if_true] at h
        rcases ih rest l0 e h with h2 | h2
        · left; exact h2
        · right; exact List.mem_cons_of_mem _ h2
      · simp only [hb, if_false] at h
        by_cases hp : (trimSp l == ")".data) = true
        · simp only [hp, if_true] at h; cases h
        · simp only [hp, if_false] at h
          cases hs : parseSpecTail l with
          | none =>
            rw [hs] at h
            dsimp only at h
            injection h with h2
            right
            rw [← h2]
            exact List.mem_cons_self _ _
          | some spec =>
            rw [hs] at h
            dsimp only at h
            cases hrec : collectImports l0 fuel rest with
            | ok pr2 => rw [hrec] at h; simp [Except.map] at h
            | error e2 =>
              rw [hrec] at h
              simp only [Except.map] at h
              injection h with h2
              rcases ih rest l0 e2 hrec with h3 | h3
              · left; rw [← h2]; exact h3
              · right; rw [← h2]; exact List.mem_cons_of_mem _ h3

theorem parseDecls_error_mem :
    ∀ (fuel : Nat) (lines : List Str) (e : Str),
      parseDecls fuel lines = .error e → e ∈ lines := by
  intro fuel
  induction fuel with
  | zero =>
    intro lines e h
    cases lines with
    | nil => cases h
    | cons l rest =>
      injection h with h2
      rw [← h2]
      exact List.mem_cons_self _ _
  | succ fuel ih =>
    intro lines e h
    cases lines with
    | nil => cases h
    | cons l rest =>
      simp only [parseDecls] at h
      by_cases hb : isBlank l = true
      · simp only [hb, if_true] at h
        exact List.mem_cons_of_mem _ (ih rest e h)
      · simp only [hb, if_false] at h
        by_cases hi : (("import".data).isPrefixOf l) = true
        · simp only [hi, if_true] at h
          by_cases hpar : (trimSp (l.drop 6) == "(".data) = true
          · simp only [hpar, if_true] at h
            cases hci : collectImports l fuel rest with
            | error e2 =>
              rw [hci] at h
              dsimp only at h
              injection h with h2
              rcases collectImports_error_mem fuel rest l e2 hci with h3 | h3
              · rw [← h2, h3]; exact List.mem_cons_self _ _
              · rw [← h2]; exact List.mem_cons_of_mem _ h3
            | ok pr =>
              rw [hci] at h
              dsimp only at h
              cases hrec : parseDecls fuel pr.2 with
              | ok ds => rw [hrec] at h; simp [Except.map] at h
              | error e2 =>
                rw [hrec] at h
                simp only [Except.map] at h
                injection h with h2
                rw [← h2]
                exact List.mem_cons_of_mem _
                  (collectImports_sub fuel rest l pr hci e2 (ih pr.2 e2 hrec))
          · simp only [hpar, if_false] at h
            cases hs : parseSpecTail (l.drop 6) with
            | none =>
              rw [hs] at h
              dsimp only at h
              injection h with h2
              rw [← h2]
              exact List.mem_cons_self _ _
            | some spec =>
              rw [hs] at h
              dsimp only at h
              cases hrec : parseDecls fuel rest with
              | ok ds => rw [hrec] at h; simp [Except.map] at h
              | error e2 =>
                rw [hrec] at h
                simp only [Except.map] at h
                injection h with h2
                rw [← h2]
                exact List.mem_cons_of_mem _ (ih rest e2 hrec)
        · simp only [hi, if_false] at h
          by_cases hk : declKeyword l = true
          · simp only [hk, if_true] at h
            by_cases hd : braceDelta l ≤ 0
            · simp only [hd, if_true] at h
              cases hrec : parseDecls fuel rest with
              | ok ds => rw [hrec] at h; simp [Except.map] at h
              | error e2 =>
                rw [hrec] at h
                simp only [Except.map] at h
                injection h with h2
                rw [← h2]
                exact List.mem_cons_of_mem _ (ih rest e2 hrec)
            · simp only [hd, if_false] at h
              cases hrec : parseDecls fuel (collectDecl (braceDelta l) rest).2 with
              | ok ds => rw [hrec] at h; simp [Except.map] at h
              | error e2 =>
                rw [hrec] at h
                simp only [Except.map] at h
                injection h with h2
                rw [← h2]
                exact List.mem_cons_of_mem _ (collectDecl_sub rest _ e2 (ih _ e2 hrec))
          · simp only [hk, if_false] at h
            injection h with h2
            rw [← h2]
            exact List.mem_cons_self _ _

theorem splitLines_pkgHeader (out : Str) :
    splitLines (pkgHeader ++ out)
      = "package thriftrw".data :: [] :: splitLines out := by
  have h1 : pkgHeader ++ out = "package thriftrw".data ++ '\n' :: ('\n' :: out) := by
    have : pkgHeader = "package thriftrw".data ++ ['\n', '\n'] := by decide
    rw [this, List.append_assoc]
    rfl
  rw [h1, splitLines_flat _ (by decide)]
  have : splitLines ('\n' :: out) = [] :: splitLines out := by
    simp [splitLines]
  rw [this]

theorem parseFile_header_error (out ex : Str)
    (h : parseFile (pkgHeader ++ out) = .error ex) :
    ex ∈ [] :: splitLines out := by
  unfold parseFile at h
  rw [splitLines_pkgHeader] at h
  have hdw : ("package thriftrw".data :: [] :: splitLines out).dropWhile
      (fun l => isBlank l) = "package thriftrw".data :: [] :: splitLines out := by
    rw [List.dropWhile_cons]
    simp [show isBlank ("package thriftrw".data) = false by decide]
  rw [hdw] at h
  dsimp only at h
  rw [if_pos (by decide)] at h
  rw [if_pos (by decide)] at h
  cases hp : parseDecls ([] :: splitLines out).length ([] :: splitLines out) with
  | ok ds => rw [hp] at h; cases h
  | error e2 =>
    rw [hp] at h
    injection h with h2
    rw [← h2]
    exact parseDecls_error_mem _ _ e2 hp

/-- C7: when the rendered text fails to parse as a compilation unit,
`DeclareFromTemplate` returns a `RenderedSyntaxError` whose excerpt is a line
of the offending rendered text, and that error is distinguishable from a
`TemplateSyntaxError` (and from a `TemplateExecutionError`), which signal
faults of the template text itself. -/
theorem c7_rendered_error (g : Generator) (s : Str) (data : Data)
    (bs : Str) (g2 : Generator) (ex : Str)
    (hr : renderTemplate g s data = (.ok bs, g2))
    (hpf : parseFile bs = .error ex) :
    (DeclareFromTemplate g s data).1 = .error (.RenderedSyntaxError ex) ∧
    ex ∈ splitLines bs ∧
    (∀ e2 f2, GenError.RenderedSyntaxError e2 ≠ .TemplateSyntaxError ∧
      GenError.RenderedSyntaxError e2 ≠ .TemplateExecutionError f2) := by
  cases hp : parseTmpl s with
  | none =>
    rw [renderTemplate, hp] at hr
    dsimp only at hr
    injection hr with hr1 hr2
    cases hr1
  | some nodes =>
    rcases he : execNodes data nodes g.importer with ⟨r, imp2⟩
    cases r with
    | error f =>
      rw [renderTemplate, hp] at hr
      dsimp only at hr
      rw [he] at hr
      dsimp only at hr
      injection hr with hr1 hr2
      cases hr1
    | ok out =>
      have hbs : bs = pkgHeader ++ out := by
        rw [renderTemplate, hp] at hr
        dsimp only at hr
        rw [he] at hr
        dsimp only at hr
        injection hr with hr1 hr2
        injection hr1 with hr3
        exact hr3.symm
      subst hbs
      refine ⟨?_, ?_, ?_⟩
      · rw [declare_eq_rsyn g s data hp he hpf]
      · rw [splitLines_pkgHeader]
        exact List.mem_cons_of_mem _ (parseFile_header_error out ex hpf)
      · intro e2 f2
        exact ⟨by simp, by simp⟩

/-- C7 witness: the literal template `junk` renders to text whose body does
not parse; the declare call reports the offending line `junk` as the excerpt
of a `RenderedSyntaxError`. -/
theorem c7_rendered_error_witness :
    (DeclareFromTemplate NewGenerator "junk".data []).1
      = .error (.RenderedSyntaxError "junk".data) :=
  (c7_rendered_error NewGenerator "junk".data []
    "package thriftrw\n\njunk".data NewGenerator "junk".data rfl rfl).1

/-! ### Claim C9 -/

/-- C9: on a fresh generator, declaring from the template
`type {{.Name}} int32` with `Name = "myType"` succeeds, accumulates exactly
one top-level declaration — `type myType int32`, an alias of the 32-bit
integer type — and `Write` then emits exactly that declaration after the
package clause. -/
theorem c9_round_trip :
    (DeclareFromTemplate NewGenerator "type \x7b\x7b.Name\x7d\x7d int32".data
      [("Name".data, "myType".data)]).1 = .ok () ∧
    (DeclareFromTemplate NewGenerator "type \x7b\x7b.Name\x7d\x7d int32".data
      [("Name".data, "myType".data)]).2.decls
      = [.other ["type myType int32".data]] ∧
    (Write (DeclareFromTemplate NewGenerator "type \x7b\x7b.Name\x7d\x7d int32".data
      [("Name".data, "myType".data)]).2).1
      = "package todo\n\ntype myType int32\n".data :=
  ⟨rfl, by decide, by decide⟩

/-! ### Claim C10 -/

/-- C10: every successfully rendered snippet carries the injected fixed
header `package thriftrw` — independent of the template and data — while the
file `Write` assembles carries the fixed package identifier `todo`. -/
theorem c10_fixed_package_ids (g : Generator) (s : Str) (data : Data)
    (bs : Str) (g2 : Generator)
    (h : renderTemplate g s data = (.ok bs, g2)) :
    (∃ rest, bs = "package thriftrw\n\n".data ++ rest) ∧
    (∀ g3 : Generator, (writeFile g3).pkg = "todo".data) := by
  refine ⟨?_, fun g3 => rfl⟩
  cases hp : parseTmpl s with
  | none =>
    rw [renderTemplate, hp] at h
    dsimp only at h
    injection h with h1 h2
    cases h1
  | some nodes =>
    rcases he : execNodes data nodes g.importer with ⟨r, imp2⟩
    cases r with
    | error f =>
      rw [renderTemplate, hp] at h
      dsimp only at h
      rw [he] at h
      dsimp only at h
      injection h with h1 h2
      cases h1
    | ok out =>
      refine ⟨out, ?_⟩
      rw [renderTemplate, hp] at h
      dsimp only at h
      rw [he] at h
      dsimp only at h
      injection h with h1 h2
      injection h1 with h3
      exact h3.symm

/-- C10 witness: the theorem applied to a concrete successful render. -/
theorem c10_fixed_package_ids_witness :
    (∃ rest, ("package thriftrw\n\nx".data : Str)
      = "package thriftrw\n\n".data ++ rest) ∧
    (∀ g3 : Generator, (writeFile g3).pkg = "todo".data) :=
  c10_fixed_package_ids NewGenerator "x".data [] "package thriftrw\n\nx".data
    NewGenerator rfl

end ThriftrwGen
